import Mathlib

/-!
Verification of the gallery synchronization subsystem of the Camino blog
(`src/main.py`): the reconciliation of the local asset mirror (`gallery`
table, class `Image`) against the external Contentful catalog
(`update_gallery`), the one-time week tagging pass (`update_img_week`),
and the read side (`get_all_images`).

The database table is modelled as a `List Image` in insertion order; the
auto-incremented primary key is modelled by threading a `nextId : Nat`.
-/

set_option autoImplicit false

namespace Camino

/-- The `Image` model (`src/main.py` lines 96-103): one row of the
`gallery` table.  `week` is the nullable, locally-owned label. -/
structure Image where
  id : Nat
  name : String
  asset_id : String
  url : String
  created : String
  week : Option String
  deriving Repr, DecidableEq

/-- One entry of the remote catalog as the Reconciler consumes it: the
fields `update_gallery` reads from each element of `content["items"]`
(`sys.id`, `sys.createdAt`, `fields.file.fileName`, `fields.file.url`),
all present. -/
structure RemoteAsset where
  sys_id : String
  createdAt : String
  fileName : String
  url : String
  deriving Repr, DecidableEq

/-- A raw catalog item whose JSON decoded, with each of the four paths
the code reads possibly missing (`None` models a `KeyError` on access).
-/
structure RawItem where
  sys_id? : Option String
  createdAt? : Option String
  fileName? : Option String
  url? : Option String
  deriving Repr, DecidableEq

/-- A well-formed remote asset as a raw item (every field present). -/
def RemoteAsset.toRawItem (r : RemoteAsset) : RawItem :=
  ⟨some r.sys_id, some r.createdAt, some r.fileName, some r.url⟩

/-- The row `update_gallery` inserts for an unseen catalog entry
(lines 293-298): `week` is left at its default `NULL`. -/
def mkImage (nid : Nat) (r : RemoteAsset) : Image :=
  { id := nid, name := r.fileName, asset_id := r.sys_id,
    url := r.url, created := r.createdAt, week := none }

/-- The delete loop of `update_gallery` (lines 285-288): every mirrored
row whose `asset_id` is not in `id_collection` is deleted (each deletion
committed immediately); the survivors keep their order and fields. -/
def deletePass (m : List Image) (ids : List String) : List Image :=
  m.filter (fun img => ids.contains img.asset_id)

/-- The insert loop of `update_gallery` (lines 290-302): for each catalog
item in order, `Image.query.filter_by(asset_id=...).first()` is consulted
against the current table (which sees rows committed earlier in the same
loop); on a miss a fresh row is appended.  Returns the new table, the
next free primary key, and the number of inserts performed. -/
def insertPass : List Image → Nat → List RemoteAsset → List Image × Nat × Nat
  | m, nid, [] => (m, nid, 0)
  | m, nid, r :: rs =>
    match m.find? (fun img => img.asset_id == r.sys_id) with
    | some _ => insertPass m nid rs
    | none =>
      let res := insertPass (m ++ [mkImage nid r]) (nid + 1) rs
      (res.1, res.2.1, res.2.2 + 1)

/-- The outcome of one reconcile pass: the mirror, the next free primary
key, and the counts of rows inserted and deleted by the pass. -/
structure ReconcileResult where
  mirror : List Image
  nextId : Nat
  added : Nat
  removed : Nat
  deriving Repr, DecidableEq

/-- The function `update_gallery` (lines 275-304) on a successfully fetched,
well-formed catalog: build `id_collection`, delete every local row whose
`asset_id` is absent from it, then insert a fresh row (with `week = NULL`)
for every catalog item not yet mirrored. -/
def update_gallery (m : List Image) (items : List RemoteAsset) (nid : Nat) :
    ReconcileResult :=
  let ids := items.map (·.sys_id)
  let kept := deletePass m ids
  let res := insertPass kept nid items
  { mirror := res.1, nextId := res.2.1, added := res.2.2,
    removed := m.length - kept.length }

/-- Iterated reconcile passes, threading the mirror and the key counter. -/
def reconcileMany (m : List Image) (nid : Nat) :
    List (List RemoteAsset) → List Image × Nat
  | [] => (m, nid)
  | items :: rest =>
    let r := update_gallery m items nid
    reconcileMany r.mirror r.nextId rest

/-- The comprehension `id_collection = [image["sys"]["id"] for image in
content["items"]]` (line 282): succeeds only when every item carries `sys.id`; a missing id
raises `KeyError` before any row is touched. -/
def extractIds : List RawItem → Option (List String)
  | [] => some []
  | r :: rs =>
    match r.sys_id? with
    | none => none
    | some i => (extractIds rs).map (i :: ·)

/-- The insert loop over raw items: reading a missing field raises
`KeyError`, aborting the pass; rows committed earlier in the pass stay
(the `error` payload is the table at the moment of the abort). -/
def insertPassRaw : List Image → Nat → List RawItem →
    Except (List Image) (List Image × Nat × Nat)
  | m, nid, [] => Except.ok (m, nid, 0)
  | m, nid, r :: rs =>
    match r.sys_id? with
    | none => Except.error m
    | some sid =>
      match m.find? (fun img => img.asset_id == sid) with
      | some _ => insertPassRaw m nid rs
      | none =>
        match r.fileName?, r.url?, r.createdAt? with
        | some fn, some u, some c =>
          match insertPassRaw
              (m ++ [{ id := nid, name := fn, asset_id := sid,
                       url := u, created := c, week := none }])
              (nid + 1) rs with
          | Except.ok (m2, nid2, a) => Except.ok (m2, nid2, a + 1)
          | Except.error me => Except.error me
        | _, _, _ => Except.error m

/-- The whole `update_gallery` pass including its failure behaviour.
`fetched = none` models a network/HTTP/JSON-decoding failure of the
fetch (lines 278-280): the handler aborts before touching the table.
A missing `sys.id` aborts at `id_collection` (line 282), also before
any mutation.  Otherwise deletions are committed one by one, and the
insert loop may abort on a missing field, keeping what was committed.
The `error` payload is the table state left behind by the failed pass. -/
def update_gallery_raw (m : List Image) (fetched : Option (List RawItem))
    (nid : Nat) : Except (List Image) ReconcileResult :=
  match fetched with
  | none => Except.error m
  | some items =>
    match extractIds items with
    | none => Except.error m
    | some ids =>
      let kept := deletePass m ids
      match insertPassRaw kept nid items with
      | Except.ok (m2, nid2, a) =>
        Except.ok { mirror := m2, nextId := nid2, added := a,
                    removed := m.length - kept.length }
      | Except.error me => Except.error me

/-- The handler `update_img_week` (lines 307-323): one pass over the table setting
`week` on every row where it is `NULL`; rows already tagged are left
alone.  Also returns the number of rows written. -/
def update_img_week : List Image → String → List Image × Nat
  | [], _ => ([], 0)
  | img :: rest, label =>
    let res := update_img_week rest label
    if img.week = none then
      ({ img with week := some label } :: res.1, res.2 + 1)
    else
      (img :: res.1, res.2)

/-- The list `weeks_list` of `get_all_images` (line 260):
`SELECT DISTINCT week FROM gallery` — the distinct values of the `week`
column, `NULL` included when an untagged row exists. -/
def weeks_list (m : List Image) : List (Option String) :=
  (m.map (·.week)).dedup

/-- The list `week_images` of `get_all_images` (line 261): rows whose `week`
equals `request.args.get("week")` (`none` when the parameter is absent),
in table order. -/
def week_images (m : List Image) (param : Option String) : List Image :=
  m.filter (fun img => img.week == param)

/-- The pick `rnd_image = choice(images)` with the empty case caught
(lines 263-266): `none` models the `""` fallback; a non-empty table
yields the row at the randomly chosen index `k`. -/
def pick_bg (m : List Image) (k : Nat) : Option Image :=
  match m with
  | [] => none
  | _ :: _ => m.get? (k % m.length)

end Camino
namespace Camino

/-! ### Basic lemmas about the reconcile passes -/

lemma mem_deletePass {img : Image} {m : List Image} {ids : List String} :
    img ∈ deletePass m ids ↔ img ∈ m ∧ img.asset_id ∈ ids := by
  simp [deletePass, List.mem_filter]

lemma deletePass_sublist (m : List Image) (ids : List String) :
    (deletePass m ids).Sublist m :=
  List.filter_sublist m

lemma insertPass_append (rs : List RemoteAsset) :
    ∀ (m : List Image) (nid : Nat), ∃ t, (insertPass m nid rs).1 = m ++ t := by
  induction rs with
  | nil => exact fun m nid => ⟨[], by simp [insertPass]⟩
  | cons r rs ih =>
    intro m nid
    cases hf : m.find? (fun img => img.asset_id == r.sys_id) with
    | some i => simpa [insertPass, hf] using ih m nid
    | none =>
      obtain ⟨t, ht⟩ := ih (m ++ [mkImage nid r]) (nid + 1)
      exact ⟨mkImage nid r :: t, by simp [insertPass, hf, ht]⟩

lemma mem_insertPass_of_mem {img : Image} {m : List Image} {nid : Nat}
    {rs : List RemoteAsset} (h : img ∈ m) : img ∈ (insertPass m nid rs).1 := by
  obtain ⟨t, ht⟩ := insertPass_append rs m nid
  rw [ht]
  exact List.mem_append_left _ h

lemma mem_insertPass {img : Image} (rs : List RemoteAsset) :
    ∀ (m : List Image) (nid : Nat), img ∈ (insertPass m nid rs).1 →
      img ∈ m ∨ img.asset_id ∈ rs.map (·.sys_id) := by
  induction rs with
  | nil => intro m nid h; exact Or.inl (by simpa [insertPass] using h)
  | cons r rs ih =>
    intro m nid h
    cases hf : m.find? (fun img2 => img2.asset_id == r.sys_id) with
    | some i =>
      rcases ih m nid (by simpa [insertPass, hf] using h) with hl | hr
      · exact Or.inl hl
      · exact Or.inr (by simp [hr])
    | none =>
      rcases ih (m ++ [mkImage nid r]) (nid + 1)
          (by simpa [insertPass, hf] using h) with hl | hr
      · rcases List.mem_append.mp hl with hl2 | hl2
        · exact Or.inl hl2
        · right
          have : img = mkImage nid r := by simpa using hl2
          simp [this, mkImage]
      · exact Or.inr (by simp [hr])

lemma insertPass_covers {r : RemoteAsset} (rs : List RemoteAsset) :
    ∀ (m : List Image) (nid : Nat), r ∈ rs →
      ∃ img ∈ (insertPass m nid rs).1, img.asset_id = r.sys_id := by
  induction rs with
  | nil => intro m nid h; cases h
  | cons r0 rs ih =>
    intro m nid h
    cases hf : m.find? (fun img2 => img2.asset_id == r0.sys_id) with
    | some i =>
      rcases List.mem_cons.mp h with he | ht
      · subst he
        refine ⟨i, ?_, by simpa using List.find?_some hf⟩
        have hi : i ∈ m := List.mem_of_find?_eq_some hf
        simpa [insertPass, hf] using mem_insertPass_of_mem hi
      · obtain ⟨img, h1, h2⟩ := ih m nid ht
        exact ⟨img, by simpa [insertPass, hf] using h1, h2⟩
    | none =>
      rcases List.mem_cons.mp h with he | ht
      · subst he
        refine ⟨mkImage nid r, ?_, rfl⟩
        simpa [insertPass, hf] using
          mem_insertPass_of_mem (List.mem_append_right m (by simp))
      · obtain ⟨img, h1, h2⟩ := ih (m ++ [mkImage nid r0]) (nid + 1) ht
        exact ⟨img, by simpa [insertPass, hf] using h1, h2⟩

lemma insertPass_noop (rs : List RemoteAsset) :
    ∀ (m : List Image) (nid : Nat),
      (∀ r ∈ rs, ∃ img ∈ m, img.asset_id = r.sys_id) →
      insertPass m nid rs = (m, nid, 0) := by
  induction rs with
  | nil => intro m nid _; rfl
  | cons r rs ih =>
    intro m nid h
    obtain ⟨img, hm, he⟩ := h r (by simp)
    cases hf : m.find? (fun img2 => img2.asset_id == r.sys_id) with
    | none =>
      rw [List.find?_eq_none] at hf
      exact absurd (by simp [he]) (hf img hm)
    | some i =>
      simpa [insertPass, hf] using ih m nid (fun r2 h2 => h r2 (by simp [h2]))

lemma update_gallery_mirror (m : List Image) (items : List RemoteAsset) (nid : Nat) :
    (update_gallery m items nid).mirror =
      (insertPass (deletePass m (items.map (·.sys_id))) nid items).1 := rfl

lemma mem_update_gallery_ids {img : Image} {m : List Image}
    {items : List RemoteAsset} {nid : Nat}
    (h : img ∈ (update_gallery m items nid).mirror) :
    img.asset_id ∈ items.map (·.sys_id) := by
  rw [update_gallery_mirror] at h
  rcases mem_insertPass items _ nid h with hk | hr
  · exact (mem_deletePass.mp hk).2
  · exact hr

lemma update_gallery_covers {r : RemoteAsset} (m : List Image)
    {items : List RemoteAsset} (nid : Nat) (h : r ∈ items) :
    ∃ img ∈ (update_gallery m items nid).mirror, img.asset_id = r.sys_id := by
  rw [update_gallery_mirror]
  exact insertPass_covers items _ nid h

end Camino
namespace Camino

/-! ### C1, C2, C3: reconciliation set-correctness, idempotence, frame -/

/-- C1.  After one `update_gallery` pass on a successfully fetched
catalog, the set of `asset_id`s in the mirror equals exactly the set of
`sys.id`s present in that fetch. -/
theorem reconcile_set_correct (m : List Image) (items : List RemoteAsset)
    (nid : Nat) (x : String) :
    x ∈ (update_gallery m items nid).mirror.map (·.asset_id) ↔
      x ∈ items.map (·.sys_id) := by
  constructor
  · intro hx
    rcases List.mem_map.mp hx with ⟨img, hmem, he⟩
    exact he ▸ mem_update_gallery_ids hmem
  · intro hx
    rcases List.mem_map.mp hx with ⟨r, hr, he⟩
    obtain ⟨img, hmem, hid⟩ := update_gallery_covers m nid hr
    exact List.mem_map.mpr ⟨img, hmem, by rw [hid, he]⟩

/-- C2.  Running `update_gallery` a second time against the unchanged
catalog is a no-op: it deletes nothing, inserts nothing, and leaves the
mirror (and the key counter) exactly as the first pass left them. -/
theorem reconcile_idempotent (m : List Image) (items : List RemoteAsset)
    (nid : Nat) :
    update_gallery (update_gallery m items nid).mirror items
        (update_gallery m items nid).nextId =
      { mirror := (update_gallery m items nid).mirror,
        nextId := (update_gallery m items nid).nextId,
        added := 0, removed := 0 } := by
  set m1 := (update_gallery m items nid).mirror with hm1
  set nid1 := (update_gallery m items nid).nextId with hnid1
  have hkeep : deletePass m1 (items.map (·.sys_id)) = m1 := by
    apply List.filter_eq_self.mpr
    intro img hmem
    have : img.asset_id ∈ items.map (·.sys_id) := mem_update_gallery_ids hmem
    simpa using this
  have hnoop : insertPass m1 nid1 items = (m1, nid1, 0) := by
    apply insertPass_noop
    intro r hr
    exact update_gallery_covers m nid hr
  show ({ mirror := (insertPass (deletePass m1 (items.map (·.sys_id))) nid1 items).1,
          nextId := (insertPass (deletePass m1 (items.map (·.sys_id))) nid1 items).2.1,
          added := (insertPass (deletePass m1 (items.map (·.sys_id))) nid1 items).2.2,
          removed := m1.length - (deletePass m1 (items.map (·.sys_id))).length } :
        ReconcileResult) = _
  rw [hkeep, hnoop]
  simp

/-- C3.  A mirrored row whose `asset_id` stays in the catalog survives
any number of reconcile passes with every field (name, url, created,
week) untouched: the very same record is still in the mirror. -/
theorem reconcile_preserves_mirrored_fields (img : Image) (m : List Image)
    (nid : Nat) (passes : List (List RemoteAsset)) (hm : img ∈ m)
    (hp : ∀ items ∈ passes, img.asset_id ∈ items.map (·.sys_id)) :
    img ∈ (reconcileMany m nid passes).1 := by
  induction passes generalizing m nid with
  | nil => simpa [reconcileMany] using hm
  | cons items rest ih =>
    show img ∈ (reconcileMany (update_gallery m items nid).mirror
      (update_gallery m items nid).nextId rest).1
    apply ih
    · rw [update_gallery_mirror]
      exact mem_insertPass_of_mem (mem_deletePass.mpr ⟨hm, hp items (by simp)⟩)
    · exact fun its h => hp its (by simp [h])

/-- Witness for C3: the already-tagged row `b` (week `"W1"`) survives two
further passes whose catalogs still carry `b`, fields intact. -/
theorem reconcile_preserves_mirrored_fields_witness :
    (⟨2, "b.jpg", "b", "ub", "cb", some "W1"⟩ : Image) ∈
        [⟨1, "a.jpg", "a", "ua", "ca", none⟩,
         ⟨2, "b.jpg", "b", "ub", "cb", some "W1"⟩] ∧
      (∀ items ∈ [[(⟨"b", "cb2", "b2.jpg", "ub2"⟩ : RemoteAsset),
                    ⟨"c", "cc", "c.jpg", "uc"⟩], [⟨"b", "cb3", "b3.jpg", "ub3"⟩]],
        "b" ∈ items.map (·.sys_id)) ∧
      (⟨2, "b.jpg", "b", "ub", "cb", some "W1"⟩ : Image) ∈
        (reconcileMany
          [⟨1, "a.jpg", "a", "ua", "ca", none⟩,
           ⟨2, "b.jpg", "b", "ub", "cb", some "W1"⟩] 3
          [[⟨"b", "cb2", "b2.jpg", "ub2"⟩, ⟨"c", "cc", "c.jpg", "uc"⟩],
           [⟨"b", "cb3", "b3.jpg", "ub3"⟩]]).1 :=
  ⟨by decide, by decide,
    reconcile_preserves_mirrored_fields _ _ 3 _ (by decide) (by decide)⟩

end Camino
namespace Camino

/-! ### C4: the week tagging pass -/

/-- C4.  `update_img_week` keeps the table length, sets `week = label` on
exactly the rows whose `week` was `NULL`, leaves every already-tagged row
byte-for-byte unchanged (first write wins), and the number of rows
written is the number of previously untagged rows — `0` when there was
none. -/
theorem tagUntagged_spec (m : List Image) (label : String) :
    (update_img_week m label).1.length = m.length ∧
    (∀ p ∈ m.zip (update_img_week m label).1,
        (p.1.week = none → p.2 = { p.1 with week := some label }) ∧
        (p.1.week ≠ none → p.2 = p.1)) ∧
    (update_img_week m label).2 = m.countP (fun img => img.week == none) := by
  induction m with
  | nil => simp [update_img_week]
  | cons img rest ih =>
    obtain ⟨ihlen, ihzip, ihcount⟩ := ih
    by_cases hw : img.week = none
    · refine ⟨by simp [update_img_week, hw, ihlen], ?_, ?_⟩
      · intro p hp
        rw [show update_img_week (img :: rest) label =
              ({ img with week := some label } :: (update_img_week rest label).1,
               (update_img_week rest label).2 + 1) by simp [update_img_week, hw]]
          at hp
        rcases List.mem_cons.mp hp with he | ht
        · subst he
          exact ⟨fun _ => rfl, fun h2 => absurd hw h2⟩
        · exact ihzip p ht
      · simp [update_img_week, hw, ihcount, List.countP_cons]
    · refine ⟨by simp [update_img_week, hw, ihlen], ?_, ?_⟩
      · intro p hp
        rw [show update_img_week (img :: rest) label =
              (img :: (update_img_week rest label).1,
               (update_img_week rest label).2) by simp [update_img_week, hw]]
          at hp
        rcases List.mem_cons.mp hp with he | ht
        · subst he
          exact ⟨fun h2 => absurd h2 hw, fun _ => rfl⟩
        · exact ihzip p ht
      · simp [update_img_week, hw, ihcount, List.countP_cons]

/-- Witness for C4 at a concrete table: the untagged row gets `"W2"`,
the `"W1"` row is untouched, and one row is counted. -/
theorem tagUntagged_spec_witness :
    (update_img_week
        [⟨1, "a.jpg", "a", "ua", "ca", none⟩,
         ⟨2, "b.jpg", "b", "ub", "cb", some "W1"⟩] "W2").1.length =
      ([⟨1, "a.jpg", "a", "ua", "ca", none⟩,
        ⟨2, "b.jpg", "b", "ub", "cb", some "W1"⟩] : List Image).length ∧
    (∀ p ∈ ([⟨1, "a.jpg", "a", "ua", "ca", none⟩,
             ⟨2, "b.jpg", "b", "ub", "cb", some "W1"⟩] : List Image).zip
          (update_img_week
            [⟨1, "a.jpg", "a", "ua", "ca", none⟩,
             ⟨2, "b.jpg", "b", "ub", "cb", some "W1"⟩] "W2").1,
        (p.1.week = none → p.2 = { p.1 with week := some "W2" }) ∧
        (p.1.week ≠ none → p.2 = p.1)) ∧
    (update_img_week
        [⟨1, "a.jpg", "a", "ua", "ca", none⟩,
         ⟨2, "b.jpg", "b", "ub", "cb", some "W1"⟩] "W2").2 =
      ([⟨1, "a.jpg", "a", "ua", "ca", none⟩,
        ⟨2, "b.jpg", "b", "ub", "cb", some "W1"⟩] : List Image).countP
        (fun img => img.week == none) :=
  tagUntagged_spec
    [⟨1, "a.jpg", "a", "ua", "ca", none⟩,
     ⟨2, "b.jpg", "b", "ub", "cb", some "W1"⟩] "W2"

/-! ### C5: the distinct-weeks query -/

/-- C5 counterexample.  On a mirror holding one untagged row,
`weeks_list` (the `SELECT DISTINCT week` of line 260) contains `NULL`:
the claim that null is never an element is false on the code. -/
theorem distinctWeeks_includes_null_cex :
    none ∈ weeks_list [⟨1, "a.jpg", "a", "ua", "ca", none⟩] := by
  decide

/-- C5 amended.  `weeks_list` returns exactly the set of `week` values
carried by rows of the mirror — the non-null labels in use, plus `NULL`
itself whenever an untagged row exists. -/
theorem distinctWeeks_exact (m : List Image) (w : Option String) :
    w ∈ weeks_list m ↔ ∃ img ∈ m, img.week = w := by
  simp [weeks_list, List.mem_dedup, List.mem_map]

/-! ### C8: the random background pick -/

/-- C8.  On an empty mirror the pick is the explicit no-asset result
(`choice`'s `IndexError` is caught and `""` returned); on a non-empty
mirror the pick is a row of the full, unfiltered mirror, and every index
selects the corresponding row — no week filter is involved. -/
theorem pickBackground_spec (m : List Image) (k : Nat) :
    pick_bg [] k = none ∧
    (m ≠ [] → ∃ img, pick_bg m k = some img ∧ img ∈ m) ∧
    (∀ i (h : i < m.length), pick_bg m i = some (m.get ⟨i, h⟩)) := by
  refine ⟨rfl, ?_, ?_⟩
  · intro hne
    match m, hne with
    | img0 :: rest, _ =>
      have hlt : k % (img0 :: rest).length < (img0 :: rest).length :=
        Nat.mod_lt _ (by simp)
      refine ⟨(img0 :: rest).get ⟨k % (img0 :: rest).length, hlt⟩, ?_,
        List.get_mem _ _ _⟩
      simp [pick_bg, List.get?_eq_get hlt]
  · intro i h
    match m, h with
    | img0 :: rest, h =>
      show (img0 :: rest).get? (i % (img0 :: rest).length) = _
      rw [Nat.mod_eq_of_lt h, List.get?_eq_get h]

/-- Witness for C8 on a two-row mirror and index 5. -/
theorem pickBackground_spec_witness :
    ([⟨1, "a.jpg", "a", "ua", "ca", none⟩,
      ⟨2, "b.jpg", "b", "ub", "cb", some "W1"⟩] : List Image) ≠ [] ∧
    (∃ img, pick_bg
        [⟨1, "a.jpg", "a", "ua", "ca", none⟩,
         ⟨2, "b.jpg", "b", "ub", "cb", some "W1"⟩] 5 = some img ∧
      img ∈ ([⟨1, "a.jpg", "a", "ua", "ca", none⟩,
              ⟨2, "b.jpg", "b", "ub", "cb", some "W1"⟩] : List Image)) :=
  ⟨by decide,
    (pickBackground_spec
      [⟨1, "a.jpg", "a", "ua", "ca", none⟩,
       ⟨2, "b.jpg", "b", "ub", "cb", some "W1"⟩] 5).2.1 (by decide)⟩

/-! ### C10: the list query with the week parameter absent -/

/-- C10.  With the `week` parameter absent (`request.args.get` yields
`None`), the filtered list is exactly the untagged rows, in table order;
it is non-empty whenever an untagged row exists. -/
theorem listByWeek_absent_param_untagged (m : List Image) :
    (∀ img, img ∈ week_images m none ↔ img ∈ m ∧ img.week = none) ∧
    (week_images m none).Sublist m ∧
    ((∃ img ∈ m, img.week = none) → week_images m none ≠ []) := by
  refine ⟨fun img => ?_, List.filter_sublist m, ?_⟩
  · simp [week_images, List.mem_filter]
  · rintro ⟨img, hm, hw⟩ hemp
    have : img ∈ week_images m none := by
      simp [week_images, List.mem_filter, hm, hw]
    rw [hemp] at this
    cases this

/-- Witness for C10: the untagged row `a` is listed when the parameter is
absent, so the query is non-empty. -/
theorem listByWeek_absent_param_untagged_witness :
    (∃ img ∈ ([⟨1, "a.jpg", "a", "ua", "ca", none⟩,
               ⟨2, "b.jpg", "b", "ub", "cb", some "W1"⟩] : List Image),
        img.week = none) ∧
    week_images
        [⟨1, "a.jpg", "a", "ua", "ca", none⟩,
         ⟨2, "b.jpg", "b", "ub", "cb", some "W1"⟩] none ≠ [] :=
  ⟨⟨⟨1, "a.jpg", "a", "ua", "ca", none⟩, by decide, rfl⟩,
    (listByWeek_absent_param_untagged
      [⟨1, "a.jpg", "a", "ua", "ca", none⟩,
       ⟨2, "b.jpg", "b", "ub", "cb", some "W1"⟩]).2.2
      ⟨⟨1, "a.jpg", "a", "ua", "ca", none⟩, by decide, rfl⟩⟩

end Camino
namespace Camino

/-! ### C6: failure behaviour of the pass; C7: empty-catalog drain -/

/-- C6 counterexample.  A malformed response whose single item carries
`sys.id = "b"` but no `fields` entry makes the pass fail **after** the
delete loop has already committed: the row `a` is deleted (the failing
pass leaves the empty table behind), so a malformed response is not
always mutation-free. -/
theorem reconcile_malformed_mutates_cex :
    update_gallery_raw [⟨1, "a.jpg", "a", "ua", "ca", none⟩]
        (some [⟨some "b", none, none, none⟩]) 2 = Except.error [] ∧
      ([] : List Image) ≠ [⟨1, "a.jpg", "a", "ua", "ca", none⟩] :=
  ⟨rfl, by decide⟩

/-- C6 amended.  A fetch that fails before the catalog is decoded
(network/HTTP error, undecodable JSON) or whose items cannot all yield a
`sys.id` at the `id_collection` step aborts the pass with the mirror
completely untouched; only a malformation first observed inside the
insert loop (a missing `fields`/`createdAt` on a new item) can leave the
deletions and earlier inserts of the aborted pass behind. -/
theorem reconcile_fetch_failure_no_mutation (m : List Image) (nid : Nat) :
    update_gallery_raw m none nid = Except.error m ∧
    ∀ items, extractIds items = none →
      update_gallery_raw m (some items) nid = Except.error m := by
  refine ⟨rfl, fun items h => ?_⟩
  simp [update_gallery_raw, h]

/-- Witness for C6 (amended): a network failure and a response whose
item lacks `sys.id` both leave the one-row mirror exactly as it was. -/
theorem reconcile_fetch_failure_no_mutation_witness :
    update_gallery_raw [⟨1, "a.jpg", "a", "ua", "ca", none⟩] none 2 =
        Except.error [⟨1, "a.jpg", "a", "ua", "ca", none⟩] ∧
      extractIds [⟨none, some "cb", some "b.jpg", some "ub"⟩] = none ∧
      update_gallery_raw [⟨1, "a.jpg", "a", "ua", "ca", none⟩]
          (some [⟨none, some "cb", some "b.jpg", some "ub"⟩]) 2 =
        Except.error [⟨1, "a.jpg", "a", "ua", "ca", none⟩] :=
  ⟨(reconcile_fetch_failure_no_mutation [⟨1, "a.jpg", "a", "ua", "ca", none⟩] 2).1,
    rfl,
    (reconcile_fetch_failure_no_mutation [⟨1, "a.jpg", "a", "ua", "ca", none⟩] 2).2
      [⟨none, some "cb", some "b.jpg", some "ub"⟩] rfl⟩

/-- C7.  Reconciling any mirror against an empty catalog succeeds (no
error is raised), deletes every row, inserts nothing, and reports the
prior mirror size as the number of removals. -/
theorem reconcile_empty_catalog_drains (m : List Image) (nid : Nat) :
    update_gallery_raw m (some []) nid =
      Except.ok { mirror := [], nextId := nid, added := 0,
                  removed := m.length } := by
  have hkept : deletePass m [] = [] := by
    apply List.filter_eq_nil_iff.mpr
    intro img _
    simp
  show (match insertPassRaw (deletePass m []) nid [] with
        | Except.ok (m2, nid2, a) =>
          Except.ok { mirror := m2, nextId := nid2, added := a,
                      removed := m.length - (deletePass m []).length }
        | Except.error me => Except.error me :
      Except (List Image) ReconcileResult) = _
  rw [hkept]
  simp [insertPassRaw]

end Camino
namespace Camino

/-! ### C9: duplicate catalog entries collapse to one row -/

lemma extractIds_toRawItem (items : List RemoteAsset) :
    extractIds (items.map RemoteAsset.toRawItem) =
      some (items.map (·.sys_id)) := by
  induction items with
  | nil => rfl
  | cons r rs ih => simp [extractIds, RemoteAsset.toRawItem, ih]

lemma insertPassRaw_toRawItem (items : List RemoteAsset) :
    ∀ (m : List Image) (nid : Nat),
      insertPassRaw m nid (items.map RemoteAsset.toRawItem) =
        Except.ok (insertPass m nid items) := by
  induction items with
  | nil => intro m nid; rfl
  | cons r rs ih =>
    intro m nid
    cases hf : m.find? (fun img => img.asset_id == r.sys_id) with
    | some i => simp [insertPassRaw, insertPass, RemoteAsset.toRawItem, hf, ih]
    | none =>
      simp [insertPassRaw, insertPass, RemoteAsset.toRawItem, hf, ih, mkImage]

/-- The raw pass agrees with the pure pass on a well-formed catalog: it
never fails there. -/
lemma update_gallery_raw_wellformed (m : List Image)
    (items : List RemoteAsset) (nid : Nat) :
    update_gallery_raw m (some (items.map RemoteAsset.toRawItem)) nid =
      Except.ok (update_gallery m items nid) := by
  simp [update_gallery_raw, extractIds_toRawItem, insertPassRaw_toRawItem,
    update_gallery]

lemma find?_asset_eq_none {m : List Image} {s : String} :
    m.find? (fun img => img.asset_id == s) = none ↔
      ∀ img ∈ m, img.asset_id ≠ s := by
  rw [List.find?_eq_none]
  simp

lemma insertPass_nodup (rs : List RemoteAsset) :
    ∀ (m : List Image) (nid : Nat), (m.map (·.asset_id)).Nodup →
      ((insertPass m nid rs).1.map (·.asset_id)).Nodup := by
  induction rs with
  | nil => intro m nid h; simpa [insertPass] using h
  | cons r rs ih =>
    intro m nid h
    cases hf : m.find? (fun img => img.asset_id == r.sys_id) with
    | some i =>
      have := ih m nid h
      simpa [insertPass, hf] using this
    | none =>
      have hnotin : ∀ img ∈ m, img.asset_id ≠ r.sys_id :=
        find?_asset_eq_none.mp hf
      have hnew : ((m ++ [mkImage nid r]).map (·.asset_id)).Nodup := by
        rw [List.map_append, List.nodup_append]
        refine ⟨h, by simp, ?_⟩
        intro x hx hy
        rcases List.mem_map.mp hx with ⟨img, hmem, he⟩
        have hxs : x = r.sys_id := by simpa [mkImage] using hy
        exact hnotin img hmem (he.trans hxs)
      have := ih (m ++ [mkImage nid r]) (nid + 1) hnew
      simpa [insertPass, hf] using this

lemma insertPass_new_fields (rs : List RemoteAsset) :
    ∀ (m : List Image) (nid : Nat) (img : Image),
      img ∈ (insertPass m nid rs).1 →
      img ∈ m ∨
        ∃ r, rs.find? (fun i2 => i2.sys_id == img.asset_id) = some r ∧
          img.name = r.fileName ∧ img.url = r.url ∧
          img.created = r.createdAt ∧ img.week = none ∧
          m.find? (fun i2 => i2.asset_id == img.asset_id) = none := by
  induction rs with
  | nil =>
    intro m nid img h
    exact Or.inl (by simpa [insertPass] using h)
  | cons r rs ih =>
    intro m nid img h
    cases hf : m.find? (fun i2 => i2.asset_id == r.sys_id) with
    | some i0 =>
      have h2 : img ∈ (insertPass m nid rs).1 := by
        simpa [insertPass, hf] using h
      rcases ih m nid img h2 with hl | ⟨r1, hfind, hn, hu, hc, hw, hnone⟩
      · exact Or.inl hl
      · right
        refine ⟨r1, ?_, hn, hu, hc, hw, hnone⟩
        have hne : ¬(r.sys_id == img.asset_id) = true := by
          intro hb
          have heq : r.sys_id = img.asset_id := by simpa using hb
          rw [heq, hnone] at hf
          cases hf
        rw [List.find?_cons_of_neg
          (p := fun i2 => i2.sys_id == img.asset_id) (a := r) rs hne]
        exact hfind
    | none =>
      have h2 : img ∈ (insertPass (m ++ [mkImage nid r]) (nid + 1) rs).1 := by
        simpa [insertPass, hf] using h
      rcases ih _ _ img h2 with hl | ⟨r1, hfind, hn, hu, hc, hw, hnone⟩
      · rcases List.mem_append.mp hl with hmem | hnew
        · exact Or.inl hmem
        · right
          have he : img = mkImage nid r := by simpa using hnew
          refine ⟨r, ?_, by simp [he, mkImage], by simp [he, mkImage],
            by simp [he, mkImage], by simp [he, mkImage], ?_⟩
          · exact List.find?_cons_of_pos _ (by simp [he, mkImage])
          · simpa [he, mkImage] using hf
      · right
        rw [List.find?_append] at hnone
        have hm1 : m.find? (fun i2 => i2.asset_id == img.asset_id) = none := by
          cases hmf : m.find? (fun i2 => i2.asset_id == img.asset_id) with
          | none => rfl
          | some j => rw [hmf] at hnone; simp at hnone
        have hm2 : ¬(r.sys_id == img.asset_id) = true := by
          intro hb
          rw [hm1] at hnone
          simp [List.find?, mkImage, hb] at hnone
        refine ⟨r1, ?_, hn, hu, hc, hw, hm1⟩
        rw [List.find?_cons_of_neg
          (p := fun i2 => i2.sys_id == img.asset_id) (a := r) rs hm2]
        exact hfind

/-- C9.  On a catalog carrying duplicate `sys.id`s the pass still
succeeds (the raw pass returns `ok`), keeps `asset_id` unique in the
mirror when it was unique before, and every row the pass created took
its `name`, `url` and `created` from the **first** catalog occurrence of
its `asset_id`, with `week = NULL`. -/
theorem reconcile_duplicates_collapse (m : List Image)
    (items : List RemoteAsset) (nid : Nat)
    (hm : (m.map (·.asset_id)).Nodup) :
    update_gallery_raw m (some (items.map RemoteAsset.toRawItem)) nid =
        Except.ok (update_gallery m items nid) ∧
      ((update_gallery m items nid).mirror.map (·.asset_id)).Nodup ∧
      ∀ img ∈ (update_gallery m items nid).mirror,
        img ∈ m ∨
          ∃ r, items.find? (fun i2 => i2.sys_id == img.asset_id) = some r ∧
            img.name = r.fileName ∧ img.url = r.url ∧
            img.created = r.createdAt ∧ img.week = none := by
  refine ⟨update_gallery_raw_wellformed m items nid, ?_, ?_⟩
  · rw [update_gallery_mirror]
    exact insertPass_nodup items _ nid
      (List.Nodup.sublist
        (List.Sublist.map _ (deletePass_sublist m _)) hm)
  · intro img hmem
    rw [update_gallery_mirror] at hmem
    rcases insertPass_new_fields items _ nid img hmem with
      hk | ⟨r, hfind, hn, hu, hc, hw, _⟩
    · exact Or.inl (mem_deletePass.mp hk).1
    · exact Or.inr ⟨r, hfind, hn, hu, hc, hw⟩

/-- Witness for C9: an empty mirror reconciled against a catalog that
lists `b` twice ends with a single `b` row built from the first
occurrence. -/
theorem reconcile_duplicates_collapse_witness :
    (([] : List Image).map (·.asset_id)).Nodup ∧
    (update_gallery_raw []
        (some ([⟨"b", "cb", "b.jpg", "ub"⟩,
                ⟨"b", "cb2", "b2.jpg", "ub2"⟩].map RemoteAsset.toRawItem)) 1 =
        Except.ok (update_gallery []
          [⟨"b", "cb", "b.jpg", "ub"⟩, ⟨"b", "cb2", "b2.jpg", "ub2"⟩] 1) ∧
      ((update_gallery []
          [⟨"b", "cb", "b.jpg", "ub"⟩,
           ⟨"b", "cb2", "b2.jpg", "ub2"⟩] 1).mirror.map (·.asset_id)).Nodup ∧
      ∀ img ∈ (update_gallery []
          [⟨"b", "cb", "b.jpg", "ub"⟩,
           ⟨"b", "cb2", "b2.jpg", "ub2"⟩] 1).mirror,
        img ∈ ([] : List Image) ∨
          ∃ r, ([⟨"b", "cb", "b.jpg", "ub"⟩,
                 ⟨"b", "cb2", "b2.jpg", "ub2"⟩] :
                List RemoteAsset).find? (fun i2 => i2.sys_id == img.asset_id) =
              some r ∧
            img.name = r.fileName ∧ img.url = r.url ∧
            img.created = r.createdAt ∧ img.week = none) :=
  ⟨by decide,
    reconcile_duplicates_collapse []
      [⟨"b", "cb", "b.jpg", "ub"⟩, ⟨"b", "cb2", "b2.jpg", "ub2"⟩] 1
      (by decide)⟩

end Camino
